import Mathlib

/-!
# Verification of the sitemap-to-llm pipeline

A shallow embedding, in Lean 4, of the core pipeline of the `sitemap-to-llm`
repository (URL extraction from XML/JSON sitemaps, include/exclude substring
filtering, batch success/error tallying, and filename derivation), together
with theorems settling the specification's claims about it.

Conventions of the embedding:
* JavaScript strings are modelled by `String` / `List Char`; the handful of
  JS string primitives the code uses (`includes`, `trim`, `startsWith`,
  `endsWith`, `toLowerCase`, `split`) are defined here on `List Char` with JS
  semantics (ASCII case mapping; the common whitespace set).
* External collaborators that the code calls through documented contracts
  (the Node `URL` parser, `String.prototype.normalize("NFD")`, the Turndown
  HTML-to-Markdown converter, the network, the filesystem) are passed in as
  explicit oracle parameters, so every theorem quantifies over their
  behaviour.
* Fallible steps return `Option`: `none` models a thrown-and-caught JS
  exception or an `undefined`/`null` value, as noted at each definition.
-/

namespace SitemapToLlm

/-! ## JS string primitives -/

/-- The character set matched by JS `\s` (and trimmed by `String.prototype.trim`):
ASCII whitespace plus the common Unicode whitespace the sources can meet. -/
def jsWhitespace (c : Char) : Bool :=
  c == ' ' || c == '\t' || c == '\n' || c == '\r' || c == '\x0b' || c == '\x0c' ||
  c == '\u00A0' || c == '\u2028' || c == '\u2029' || c == '\uFEFF'

/-- JS `String.prototype.trim`. -/
def jsTrim (s : String) : String :=
  ⟨((s.data.dropWhile jsWhitespace).reverse.dropWhile jsWhitespace).reverse⟩

/-- JS `a.includes(b)`: substring containment. -/
def jsIncludes (s pattern : String) : Bool :=
  decide (pattern.data <:+: s.data)

/-- JS `a.startsWith(b)`. -/
def jsStartsWith (s pattern : String) : Bool :=
  pattern.data.isPrefixOf s.data

/-- JS `a.endsWith(b)`. -/
def jsEndsWith (s pattern : String) : Bool :=
  pattern.data.isSuffixOf s.data

/-- JS `String.prototype.toLowerCase` (ASCII case mapping). -/
def jsToLower (s : String) : String :=
  ⟨s.data.map Char.toLower⟩

/-- JS `s.split(sep)` for a single-character separator. -/
def jsSplit (sep : Char) (s : String) : List String :=
  (s.data.splitOn sep).map fun l => ⟨l⟩

/-! ## UrlFilter: `filterUrls` (src/unnamed/part_001, lines 209-272) -/

/-- Return shape of `filterUrls`. -/
structure FilterResult where
  filteredUrls : List String
  urlsBeforeInclude : Nat
  urlsAfterInclude : Nat
  urlsAfterExclude : Nat
  deriving Repr, DecidableEq

/-- Embedding of `filterUrls` from src/unnamed/part_001:209-272, on the already-normalized
array form of the patterns (the JS `string | string[]` union is normalized to
an array before any logic runs; `console.log` reporting is side-effect only). -/
def filterUrls (urls includePatterns excludePatterns : List String) : FilterResult :=
  let urlsBeforeInclude := urls.length
  let urlsAfterIncludeStep :=
    if includePatterns.length > 0 then
      urls.filter fun url => includePatterns.any fun pattern => jsIncludes url pattern
    else urls
  let urlsAfterInclude := urlsAfterIncludeStep.length
  let finalUrls :=
    if excludePatterns.length > 0 then
      urlsAfterIncludeStep.filter fun url =>
        !(excludePatterns.any fun pattern => jsIncludes url pattern)
    else urlsAfterIncludeStep
  let urlsAfterExclude := finalUrls.length
  { filteredUrls := finalUrls
    urlsBeforeInclude := urlsBeforeInclude
    urlsAfterInclude := urlsAfterInclude
    urlsAfterExclude := urlsAfterExclude }

/-! ## UrlExtractor: JSON side (src/unnamed/part_001, lines 30-68 and 150-188) -/

/-- The values `JSON.parse` can produce. Numbers are modelled as integers
(no claim depends on fractional values); objects as association lists in
source order, later duplicate keys shadowing earlier ones as in JS. -/
inductive Json where
  | null : Json
  | bool : Bool → Json
  | num : Int → Json
  | str : String → Json
  | arr : List Json → Json
  | obj : List (String × Json) → Json

/-- JS object property lookup on a parsed JSON object: the last entry for a
duplicated key wins, as in `JSON.parse`. `none` models `undefined`. -/
def jsGetProp (entries : List (String × Json)) (key : String) : Option Json :=
  (entries.reverse.find? fun entry => entry.1 == key).map fun entry => entry.2

/-- JS truthiness of a parsed JSON value (`if (data.urls && ...)`).
`NaN` does not arise from integer-modelled numbers. -/
def jsTruthy : Json → Bool
  | .null => false
  | .bool b => b
  | .num n => n != 0
  | .str s => s.length > 0
  | .arr _ => true
  | .obj _ => true

/-- The `data.urls` property access: only objects carry properties here (array,
string, boolean and number wrappers have no `urls` property, so it is
`undefined`); access on `null` throws a `TypeError`, which the surrounding
`try`/`catch` of `extractUrlsFromJson` turns into `[]` — see below. -/
def jsUrlsProp : Json → Option Json
  | .obj entries => jsGetProp entries "urls"
  | _ => none

/-- The `urls.filter(url => typeof url === "string" && url.length > 0)` step:
keep exactly the elements that are non-empty JSON strings, in order. -/
def jsonFilterUrls (elems : List Json) : List String :=
  elems.filterMap fun elem =>
    match elem with
    | .str s => if s.length > 0 then some s else none
    | _ => none

/-- Embedding of `extractUrlsFromJson` from src/unnamed/part_001:30-52, on the outcome of
`JSON.parse(jsonContent)`: `none` models a parse exception (malformed JSON),
caught and mapped to `[]`. For parsed `null` the `data.urls` access throws a
`TypeError` which the same `catch` also maps to `[]`. Otherwise: an object
whose truthy `urls` property is an array is filtered to its non-empty
strings; a top-level array is filtered directly; anything else yields `[]`.
(An array-valued `urls` property is always truthy: `[]` is truthy in JS.) -/
def extractUrlsFromJson : Option Json → List String
  | none => []
  | some .null => []
  | some data =>
    match jsUrlsProp data with
    | some (.arr elems) => jsonFilterUrls elems
    | _ =>
      match data with
      | .arr elems => jsonFilterUrls elems
      | _ => []

/-- The claim's description of the element filter: keep exactly the non-empty
strings, in order. -/
def keepNonEmptyString (elem : Json) : Option String :=
  match elem with
  | .str s => if s.length > 0 then some s else none
  | _ => none

/-- Embedding of `isJsonContent` from src/unnamed/part_001:57-60. -/
def isJsonContent (content : String) : Bool :=
  jsStartsWith (jsTrim content) "\x7b" || jsStartsWith (jsTrim content) "["

/-- Input formats distinguished by `detectFormat`. -/
inductive Format where
  | xml : Format
  | json : Format
  deriving Repr, DecidableEq

/-- Embedding of `detectFormat` from src/unnamed/part_001:152-164: filename extension
first, then content sniffing. -/
def detectFormat (pathOrUrl content : String) : Format :=
  if jsEndsWith (jsToLower pathOrUrl) ".json" then .json
  else if jsEndsWith (jsToLower pathOrUrl) ".xml" then .xml
  else if isJsonContent content then .json
  else .xml

/-- The `source` diagnostic of a `SitemapResult`. -/
inductive Source where
  | url : Source
  | xml : Source
  | json : Source
  deriving Repr, DecidableEq

/-- The `SitemapResult` shape from src/unnamed/part_001:7-10. -/
structure SitemapResult where
  urls : List String
  source : Source
  deriving Repr, DecidableEq

/-! ## UrlExtractor: XML side (src/unnamed/part_001, lines 15-25)

`extractUrlsFromXml` runs the JS regex `/<loc>(.*?)<\/loc>/g` over the
document and collects the captures. The scanner below implements exactly the
semantics of that global regex loop:
* the engine looks for the leftmost match at or after the end of the previous
  match, trying each start position in turn;
* at a start position the literal `<loc>` must match, then the lazy `(.*?)`
  extends one character at a time — `.` matches anything except a line
  terminator (`\n`, `\r`, U+2028, U+2029) — until the literal `</loc>`
  matches, so the capture is the shortest line-terminator-free text followed
  by `</loc>`;
* on success the capture is recorded and scanning resumes after the match;
  on failure the engine retries from the next character. -/

/-- A line terminator, which JS regex `.` does not match. -/
def lineTerm (c : Char) : Bool :=
  c == '\n' || c == '\r' || c == '\u2028' || c == '\u2029'

/-- The literal `<loc>`. -/
def locOpen : List Char := ['<', 'l', 'o', 'c', '>']

/-- The literal `</loc>`. -/
def locClose : List Char := ['<', '/', 'l', 'o', 'c', '>']

/-- The lazy `(.*?)<\/loc>` tail of a match attempt: returns the capture and
the remainder after `</loc>`, or `none` when the attempt fails (a line
terminator or the end of input comes before any `</loc>`). -/
def findLocClose : List Char → Option (List Char × List Char)
  | [] => none
  | c :: cs =>
    if locClose.isPrefixOf (c :: cs) then some ([], (c :: cs).drop 6)
    else if lineTerm c then none
    else
      match findLocClose cs with
      | some (capture, rest) => some (c :: capture, rest)
      | none => none

/-- The global-regex scan: collect all captures left to right. A successful
match attempt consumes its capture plus the six characters of `</loc>`, which
is what the inlined termination argument establishes. -/
def scanLocs : List Char → List (List Char)
  | [] => []
  | c :: cs =>
    if locOpen.isPrefixOf (c :: cs) then
      match h : findLocClose ((c :: cs).drop 5) with
      | some (capture, rest) => capture :: scanLocs rest
      | none => scanLocs cs
    else scanLocs cs
termination_by l => l.length
decreasing_by
  · have key : ∀ (l capture rest : List Char),
        findLocClose l = some (capture, rest) → rest.length + 6 ≤ l.length := by
      intro l
      induction l with
      | nil => intro capture rest h'; simp [findLocClose] at h'
      | cons c' cs' ih =>
        intro capture rest h'
        rw [findLocClose] at h'
        split at h'
        · rename_i hpre
          have hlen : 6 ≤ (c' :: cs').length := by
            have hp := List.IsPrefix.length_le ( List.isPrefixOf_iff_prefix.mp hpre)
            simpa [locClose] using hp
          simp only [Option.some.injEq, Prod.mk.injEq] at h'
          obtain ⟨-, rfl⟩ := h'
          simp only [List.length_drop]
          omega
        · split at h'
          · exact absurd h' (by simp)
          · rcases hrec : findLocClose cs' with - | ⟨capture', rest'⟩
            · rw [hrec] at h'
              simp at h'
            · rw [hrec] at h'
              simp only [Option.some.injEq, Prod.mk.injEq] at h'
              obtain ⟨-, rfl⟩ := h'
              have hrec' := ih capture' rest' hrec
              simp only [List.length_cons]
              omega
    have := key _ _ _ h
    simp only [List.length_drop] at this ⊢
    omega
  · simp
  · simp

/-- Embedding of `extractUrlsFromXml` from src/unnamed/part_001:15-25 (reused verbatim as
`extractUrlsFromSitemap` in src/src/sitemap-to-jina.ts:123-133). -/
def extractUrlsFromXml (xmlContent : String) : List String :=
  (scanLocs xmlContent.data).map fun capture => ⟨capture⟩

/-- Embedding of `processSitemap` from src/unnamed/part_001:175-188, with the I/O already
performed: `inputIsUrl` is the outcome of `isUrl(input)` (the Node `URL`
constructor accepting `input`), `content` the text obtained by `getContent`,
and `parsed` the outcome of `JSON.parse(content)` (`none` = parse throws),
used when the detected format is JSON. -/
def processSitemap (inputIsUrl : Bool) (input content : String)
    (parsed : Option Json) : SitemapResult :=
  let format := detectFormat input content
  let source : Source :=
    if inputIsUrl then .url
    else match format with
      | .json => .json
      | .xml => .xml
  let urls :=
    match format with
    | .json => extractUrlsFromJson parsed
    | .xml => extractUrlsFromXml content
  { urls := urls, source := source }

/-- Decomposition of an XML document into `k` `<loc>...</loc>` pairs: junk,
then for each pair its inner text and the junk following it. Spec-side
description of "an input containing `k` well-formed pairs", used to state
claim C4. -/
def locDecomp (s0 : List Char) (parts : List (List Char × List Char)) : List Char :=
  s0 ++ (parts.map fun part => locOpen ++ (part.1 ++ (locClose ++ part.2))).flatten

/-! ## The fatal preflight of `sitemapToMd` (src/src/lib/sitemap-to-md.ts,
lines 165-189) -/

/-- The fatal `process.exit(1)` conditions of `sitemapToMd` between reading
the sitemap and starting the batch. The code has exactly these two URL-level
abort paths; there is no separate condition for malformed input. -/
inductive RunAbort where
  | noUrlsFound : RunAbort
  | noUrlsAfterFilter : RunAbort
  deriving Repr, DecidableEq

/-- The preflight of `sitemapToMd` after `processSitemap` succeeded
(I/O errors aside): abort with "No se encontraron URLs en el sitemap" when
extraction found nothing, abort with "No quedan URLs después de filtrar" when
filtering removed everything, otherwise proceed to the batch (`none`).
Oracles as in `processSitemap`. -/
def sitemapToMdPreflight (inputIsUrl : Bool) (input content : String)
    (parsed : Option Json) (includePatterns excludePatterns : List String) :
    Option RunAbort :=
  let result := processSitemap inputIsUrl input content parsed
  if result.urls.length = 0 then some .noUrlsFound
  else if (filterUrls result.urls includePatterns excludePatterns).filteredUrls.length = 0 then
    some .noUrlsAfterFilter
  else none

/-! ## The Jina JSON pipeline's per-URL step (src/src/sitemap-to-jina.ts,
lines 189-266) -/

/-- The `data` payload of a Jina Reader JSON envelope, restricted to the
fields `processUrl` reads. `none` models a `null`/absent field. -/
structure JinaDataPayload where
  title : Option String
  content : Option String
  deriving Repr, DecidableEq

/-- A Jina Reader JSON envelope, restricted to the fields `processUrl`
reads. -/
structure JinaResponse where
  data : Option JinaDataPayload
  markdownResponse : Option String
  deriving Repr, DecidableEq

/-- The JS expression `response?.markdownResponse ?? response?.data?.content ?? null` from
src/src/sitemap-to-jina.ts:247: the JS `??` skips only `null`/`undefined`,
so an empty-string `markdownResponse` is kept. -/
def jinaMarkdown (response : JinaResponse) : Option String :=
  match response.markdownResponse with
  | some md => some md
  | none =>
    match response.data with
    | some payload => payload.content
    | none => none

/-- Whether `processUrl` (src/src/sitemap-to-jina.ts:238-266) returns
`success: true` for a URL. `response = none` models `scrapeWithJinaJson`
throwing (connection/HTTP/JSON-parse error); the check
`!markdown || markdown.trim().length === 0` throws `'No se obtuvo contenido
markdown'` into the same catch; the file write is assumed to succeed. -/
def processUrlSuccess (response : Option JinaResponse) : Bool :=
  match response with
  | none => false
  | some r =>
    match jinaMarkdown r with
    | none => false
    | some markdown => !((jsTrim markdown).length == 0)

/-! ## The fetch engine's per-URL step (src/src/lib/sitemap-to-md.ts,
lines 28-39 and 257-293)

`extractTitleFromHtml` runs `/<title[^>]*>(.*?)<\/title>/i` and
`extractBodyFromHtml` runs `/<body[^>]*>([\s\S]*?)<\/body>/i`; both take the
first match. The scanners below follow the same leftmost-then-lazy regex
semantics as the `<loc>` scanner; `[^>]*>` always consumes up to the first
`>` (backtracking cannot change that, since `[^>]` never matches `>`), the
`i` flag compares tag literals case-insensitively, `(.*?)` excludes line
terminators while `([\s\S]*?)` matches anything. -/

/-- Case-insensitive character comparison (ASCII case folding, as the tags
involved are ASCII). -/
def ciChar (a b : Char) : Bool :=
  a.toLower == b.toLower

/-- Case-insensitive literal prefix test. -/
def ciPrefixOf : List Char → List Char → Bool
  | [], _ => true
  | _ :: _, [] => false
  | p :: ps, c :: cs => ciChar p c && ciPrefixOf ps cs

/-- The regex piece `[^>]*>`: skip to the first `>`, returning the remainder after it
(`none` when there is no `>`, failing the match attempt). -/
def skipAttrs : List Char → Option (List Char)
  | [] => none
  | c :: cs => if c == '>' then some cs else skipAttrs cs

/-- The literal `</title>`. -/
def titleCloseTag : List Char := ['<', '/', 't', 'i', 't', 'l', 'e', '>']

/-- The lazy `(.*?)<\/title>` tail: shortest line-terminator-free capture
followed by the closing tag. -/
def findTitleClose : List Char → Option (List Char)
  | [] => none
  | c :: cs =>
    if ciPrefixOf titleCloseTag (c :: cs) then some []
    else if lineTerm c then none
    else (findTitleClose cs).map fun capture => c :: capture

/-- First match of `/<title[^>]*>(.*?)<\/title>/i`, scanning left to
right. -/
def findTitleMatch : List Char → Option (List Char)
  | [] => none
  | c :: cs =>
    if ciPrefixOf ['<', 't', 'i', 't', 'l', 'e'] (c :: cs) then
      match skipAttrs ((c :: cs).drop 6) with
      | some afterOpen =>
        match findTitleClose afterOpen with
        | some capture => some capture
        | none => findTitleMatch cs
      | none => findTitleMatch cs
    else findTitleMatch cs

/-- Embedding of `extractTitleFromHtml` from src/src/lib/sitemap-to-md.ts:28-34: the
trimmed capture, or `null` when there is no match or the capture is empty
(`titleMatch[1]` is falsy for the empty capture). -/
def extractTitleFromHtml (html : String) : Option String :=
  match findTitleMatch html.data with
  | some capture =>
    if capture.isEmpty then none else some (jsTrim ⟨capture⟩)
  | none => none

/-- The literal `</body>`. -/
def bodyCloseTag : List Char := ['<', '/', 'b', 'o', 'd', 'y', '>']

/-- The lazy `([\s\S]*?)<\/body>` tail: `[\s\S]` also matches line
terminators. -/
def findBodyClose : List Char → Option (List Char)
  | [] => none
  | c :: cs =>
    if ciPrefixOf bodyCloseTag (c :: cs) then some []
    else (findBodyClose cs).map fun capture => c :: capture

/-- First match of `/<body[^>]*>([\s\S]*?)<\/body>/i`. -/
def findBodyMatch : List Char → Option (List Char)
  | [] => none
  | c :: cs =>
    if ciPrefixOf ['<', 'b', 'o', 'd', 'y'] (c :: cs) then
      match skipAttrs ((c :: cs).drop 5) with
      | some afterOpen =>
        match findBodyClose afterOpen with
        | some capture => some capture
        | none => findBodyMatch cs
      | none => findBodyMatch cs
    else findBodyMatch cs

/-- Embedding of `extractBodyFromHtml` from src/src/lib/sitemap-to-md.ts:36-39: the first
`<body>` slice, or the whole document when there is none. -/
def extractBodyFromHtml (html : String) : String :=
  match findBodyMatch html.data with
  | some capture => ⟨capture⟩
  | none => html

/-- One iteration of the sequential fetch-engine loop of `sitemapToMd`
(src/src/lib/sitemap-to-md.ts:258-291), up to the file write: `html = none`
models `fetchUrl(url)` throwing (the iteration lands in the catch block and
increments `errorCount`); `turndown` is the external
`TurndownService.turndown` HTML-to-Markdown oracle. Returns the markdown
written on the success path — the loop increments `successCount` whenever
this is `some md`, with no emptiness check on `md`. -/
def fetchEngineStep (turndown : String → String) (html : Option String) :
    Option String :=
  match html with
  | none => none
  | some h =>
    let title := extractTitleFromHtml h
    let body := extractBodyFromHtml h
    let markdown := turndown body
    match title with
    | some t => some ("# " ++ t ++ "\n\n" ++ markdown)
    | none => some markdown

/-! ## FilenameDeriver (src/src/lib/sitemap-to-md.ts, lines 41-98)

The external pieces are again oracles: `nfd` models
`String.prototype.normalize("NFD")` and `parseUrl` models the Node `URL`
constructor, returning the `pathname` of the parsed URL or `none` when the
constructor throws. -/

/-- Replace each maximal run of characters satisfying `p` by the single
character `replacement` — the effect of `replace(/X+/g, "-")` for a
character class `X`. The flag records whether the previous character was
inside a run. -/
def collapseRunsAux (p : Char → Bool) (replacement : Char) :
    Bool → List Char → List Char
  | _, [] => []
  | inRun, c :: cs =>
    if p c then
      if inRun then collapseRunsAux p replacement true cs
      else replacement :: collapseRunsAux p replacement true cs
    else c :: collapseRunsAux p replacement false cs

/-- Replace each maximal nonempty run matched by `p` with `replacement`. -/
def collapseRuns (p : Char → Bool) (replacement : Char) (l : List Char) :
    List Char :=
  collapseRunsAux p replacement false l

/-- The character class `[a-z0-9\s-]` of `sanitizeFilename`'s third
`replace`. -/
def sanitizeKeep (c : Char) : Bool :=
  ('a' ≤ c && c ≤ 'z') || ('0' ≤ c && c ≤ '9') || jsWhitespace c || c == '-'

/-- A combining diacritical mark, `[̀-ͯ]`. -/
def combiningMark (c : Char) : Bool :=
  0x300 ≤ c.toNat && c.toNat ≤ 0x36f

/-- Embedding of `sanitizeFilename` from src/src/lib/sitemap-to-md.ts:59-71 (identical in
src/src/sitemap-to-md.ts:175-187): lowercase, NFD-normalize, drop combining
marks, replace every character outside `[a-z0-9\s-]` with `-`, collapse
whitespace runs to `-`, collapse `-` runs, strip leading/trailing `-` runs,
cap at 100 characters, and default the empty result to `"untitled"`. -/
def sanitizeFilename (nfd : String → String) (name : String) : String :=
  let lowered := jsToLower name
  let normalized := nfd lowered
  let unaccented := normalized.data.filter fun c => !combiningMark c
  let replaced := unaccented.map fun c => if sanitizeKeep c then c else '-'
  let spacesCollapsed := collapseRuns jsWhitespace '-' replaced
  let hyphensCollapsed := collapseRuns (fun c => c == '-') '-' spacesCollapsed
  let trimmed :=
    ((hyphensCollapsed.dropWhile fun c => c == '-').reverse.dropWhile
      fun c => c == '-').reverse
  let capped := trimmed.take 100
  if capped.isEmpty then "untitled" else ⟨capped⟩

/-- The `lastSegment.replace(/\.[^/.]+$/, "")` step of `getLastUrlSegment`:
strip one trailing `.ext` where `ext` is a nonempty run of characters other
than `.` and `/`. -/
def stripExt (segment : List Char) : List Char :=
  let rev := segment.reverse
  let ext := rev.takeWhile fun c => !(c == '.') && !(c == '/')
  match rev.drop ext.length with
  | '.' :: beforeDotRev => if ext.isEmpty then segment else beforeDotRev.reverse
  | _ => segment

/-- Embedding of `getLastUrlSegment` from src/src/lib/sitemap-to-md.ts:41-57: the last
non-empty `/`-separated segment of the URL's pathname with its extension
stripped, `"index"` when that is empty or there is no non-empty segment,
`"untitled"` when the `URL` constructor throws. -/
def getLastUrlSegment (parseUrl : String → Option String) (url : String) :
    String :=
  match parseUrl url with
  | none => "untitled"
  | some pathname =>
    let segments := (jsSplit '/' pathname).filter fun segment => segment.length > 0
    match segments.getLast? with
    | some lastSegment =>
      let stripped := stripExt lastSegment.data
      if stripped.isEmpty then "index" else ⟨stripped⟩
    | none => "index"

/-- JS `String.prototype.padStart` with a single-character pad. -/
def padStart (s : String) (width : Nat) (pad : Char) : String :=
  ⟨List.replicate (width - s.length) pad ++ s.data⟩

/-- The `titleType` naming policy. -/
inductive TitleType where
  | page : TitleType
  | url : TitleType
  deriving Repr, DecidableEq

/-- The `baseFilename` computation of `determineFilename`
(src/src/lib/sitemap-to-md.ts:80-89): for `titleType = "page"`, sanitize
`pageTitle || "untitled"` (`none` models a `null` title; the empty string is
falsy too) and fall back to the URL segment when the result is `"untitled"`;
for `titleType = "url"`, always the URL segment. -/
def determineBase (nfd : String → String) (parseUrl : String → Option String)
    (url : String) (pageTitle : Option String) (titleType : TitleType) : String :=
  match titleType with
  | .page =>
    let titleOrDefault :=
      match pageTitle with
      | some t => if t.length == 0 then "untitled" else t
      | none => "untitled"
    let base := sanitizeFilename nfd titleOrDefault
    if base == "untitled" then getLastUrlSegment parseUrl url else base
  | .url => getLastUrlSegment parseUrl url

/-- Embedding of `determineFilename` from src/src/lib/sitemap-to-md.ts:73-98 (identical in
src/src/sitemap-to-md.ts:190-217): the base name, with
`paddedIndex-` prepended exactly when `titleType === "url"` — the (1-based)
index zero-padded to the decimal width of `total`. There is no
`numericPrefix` option anywhere in the sources. -/
def determineFilename (nfd : String → String) (parseUrl : String → Option String)
    (url : String) (pageTitle : Option String) (titleType : TitleType)
    (index total : Nat) : String :=
  let baseFilename := determineBase nfd parseUrl url pageTitle titleType
  match titleType with
  | .url =>
    let paddingWidth := (toString total).length
    let paddedIndex := padStart (toString (index + 1)) paddingWidth '0'
    paddedIndex ++ "-" ++ baseFilename
  | .page => baseFilename

/-- Modelled from the spec: no file under `src/` implements the
`numericPrefix` flag of the spec's NamingPolicy (§3, §4.5, and the CLI's
`--numeric-prefix`); `determineFilename` above only special-cases
`titleType = "url"`. Faithful to the spec's words (§4.5): derive the base
name exactly as the code does, and prepend the zero-padded 1-based index,
padded to the decimal width of `total`, when `numericPrefix` *or*
`titleType = "url"` is selected. -/
def deriveNameWithPolicy (nfd : String → String) (parseUrl : String → Option String)
    (url : String) (pageTitle : Option String) (titleType : TitleType)
    (numericPrefix : Bool) (index total : Nat) : String :=
  let baseFilename := determineBase nfd parseUrl url pageTitle titleType
  if numericPrefix || titleType == .url then
    let paddingWidth := (toString total).length
    let paddedIndex := padStart (toString (index + 1)) paddingWidth '0'
    paddedIndex ++ "-" ++ baseFilename
  else baseFilename

/-- Claim C7's description of the sanitization step, following the spec's
words (§4.5): "lowercase, Unicode diacritic-stripping normalization, *strip*
all characters outside `[a-z0-9\s-]`, collapse whitespace/hyphens, cap length
at 100 chars". It differs from the code's `sanitizeFilename` in one step:
out-of-class characters are stripped rather than replaced with `-`. -/
def specSanitizeTitle (nfd : String → String) (name : String) : String :=
  let lowered := jsToLower name
  let normalized := nfd lowered
  let unaccented := normalized.data.filter fun c => !combiningMark c
  let stripped := unaccented.filter sanitizeKeep
  let spacesCollapsed := collapseRuns jsWhitespace '-' stripped
  let hyphensCollapsed := collapseRuns (fun c => c == '-') '-' spacesCollapsed
  let trimmed :=
    ((hyphensCollapsed.dropWhile fun c => c == '-').reverse.dropWhile
      fun c => c == '-').reverse
  let capped := trimmed.take 100
  if capped.isEmpty then "untitled" else ⟨capped⟩

/-! ## BatchRunner (src/src/lib/sitemap-to-md.ts, lines 197-297, and
src/src/sitemap-to-jina.ts, lines 268-340)

The per-URL work (network fetch, HTML-to-Markdown conversion, file write) is
abstracted into an outcome oracle `outcome : String → Bool`: `outcome url`
tells whether the per-URL try-block of the batch loop completes without
throwing (`true` hits the `successCount++` line / `success: true` result,
`false` the catch block / `success: false`). The tallying structure itself is
the code's. -/

/-- Embedding of `chunkArray` from src/src/lib/sitemap-to-md.ts:202-207 (identical in
src/src/sitemap-to-jina.ts:269-275): slices of `size` consecutive elements.
The JS loop runs `i += size` from 0; both call sites pass the constant
`BATCH_SIZE = 50` (for `size = 0` the JS loop would not terminate; this
embedding is used only at positive sizes). -/
def chunkArray (arr : List α) (size : Nat) : List (List α) :=
  match arr with
  | [] => []
  | a :: rest => (a :: rest).take size :: chunkArray (rest.drop (size - 1)) size
termination_by arr.length
decreasing_by
  simp only [List.length_cons, List.length_drop]
  omega

/-- One `successCount++` / `errorCount++` update of the running tally
(`results.forEach` in the chunked loops, the `try`/`catch` tails of the
sequential loop). -/
def tally (acc : Nat × Nat) (success : Bool) : Nat × Nat :=
  if success then (acc.1 + 1, acc.2) else (acc.1, acc.2 + 1)

/-- The chunked engine loop (src/src/lib/sitemap-to-md.ts:211-256 for the
`jina` engine; src/src/sitemap-to-jina.ts:319-338): each chunk's URLs are
mapped to their outcomes (`Promise.all` over the chunk) and the completed
result set is folded into the tally before the next chunk starts. -/
def runChunks (outcome : String → Bool) (chunks : List (List String))
    (acc : Nat × Nat) : Nat × Nat :=
  chunks.foldl (fun acc chunk => (chunk.map outcome).foldl tally acc) acc

/-- Final `(successCount, errorCount)` of a chunked (`BATCH_SIZE = 50`) batch
run over the filtered URLs. -/
def runJinaEngine (outcome : String → Bool) (finalUrls : List String) : Nat × Nat :=
  runChunks outcome (chunkArray finalUrls 50) (0, 0)

/-- Final `(successCount, errorCount)` of the sequential `fetch`-engine loop
(src/src/lib/sitemap-to-md.ts:258-293): one URL at a time, in input order,
tallying as each completes (the 50 ms `delay` is timing only). -/
def runFetchEngine (outcome : String → Bool) (finalUrls : List String) : Nat × Nat :=
  finalUrls.foldl (fun acc url => tally acc (outcome url)) (0, 0)

end SitemapToLlm

namespace SitemapToLlm

/-! ## Claims C1, C9, C10: filtering -/

/-- Claim C1. For every URL list and non-empty include and exclude pattern lists,
`filterUrls` returns exactly the URLs that contain at least one include pattern
(substring containment) and contain no exclude pattern; in particular every
returned URL contains an include pattern and no returned URL contains an
exclude pattern. -/
theorem filterUrls_include_exclude_spec
    (urls includePatterns excludePatterns : List String)
    (hinc : includePatterns ≠ []) (hexc : excludePatterns ≠ []) :
    (filterUrls urls includePatterns excludePatterns).filteredUrls
      = urls.filter (fun url =>
          (includePatterns.any fun pattern => jsIncludes url pattern) &&
          !(excludePatterns.any fun pattern => jsIncludes url pattern))
    ∧ ∀ url ∈ (filterUrls urls includePatterns excludePatterns).filteredUrls,
        (includePatterns.any fun pattern => jsIncludes url pattern) = true
        ∧ (excludePatterns.any fun pattern => jsIncludes url pattern) = false := by
  have hinc' : 0 < includePatterns.length := List.length_pos.mpr hinc
  have hexc' : 0 < excludePatterns.length := List.length_pos.mpr hexc
  constructor
  · simp only [filterUrls, hinc', hexc', if_pos, List.filter_filter]
    congr 1
    funext url
    rw [Bool.and_comm]
  · intro url hurl
    simp only [filterUrls, hinc', hexc', if_pos, List.filter_filter,
      List.mem_filter] at hurl
    have h2 := hurl.2
    rw [Bool.and_eq_true, Bool.not_eq_true'] at h2
    exact ⟨h2.2, h2.1⟩

/-- Witness for C1 at a concrete input. -/
theorem filterUrls_include_exclude_spec_witness :
    (filterUrls ["https://a.com/x", "https://a.com/xb", "https://c.com/y"]
        ["a"] ["b"]).filteredUrls = ["https://a.com/x"] := by
  have h := filterUrls_include_exclude_spec
    ["https://a.com/x", "https://a.com/xb", "https://c.com/y"] ["a"] ["b"]
    (by decide) (by decide)
  rw [h.1]
  decide

/-- Claim C9. With an empty include pattern list and an empty exclude pattern
list, `filterUrls` is the identity on the URL list. -/
theorem filterUrls_empty_patterns_id (urls : List String) :
    (filterUrls urls [] []).filteredUrls = urls := by
  simp [filterUrls]

/-- Claim C10. The filtered output of `filterUrls` is a subsequence of the input
list: relative order and multiplicity of surviving URLs are preserved and no
URL is introduced. -/
theorem filterUrls_sublist (urls includePatterns excludePatterns : List String) :
    (filterUrls urls includePatterns excludePatterns).filteredUrls.Sublist urls := by
  unfold filterUrls
  dsimp only
  split
  · split
    · exact (List.filter_sublist _).trans (List.filter_sublist _)
    · exact List.filter_sublist _
  · split
    · exact List.filter_sublist _
    · exact List.Sublist.refl _

/-! ## Claim C2: batch tallying -/

/-- One tally step adds exactly one to the combined count. -/
theorem foldl_tally_sum (bs : List Bool) (acc : Nat × Nat) :
    (bs.foldl tally acc).1 + (bs.foldl tally acc).2 = acc.1 + acc.2 + bs.length := by
  induction bs generalizing acc with
  | nil => simp
  | cons b bs ih =>
    simp only [List.foldl_cons, ih, List.length_cons]
    cases b <;> simp [tally] <;> omega

/-- Folding whole chunks into the tally adds the total number of chunk
elements to the combined count. -/
theorem runChunks_sum (outcome : String → Bool) (chunks : List (List String))
    (acc : Nat × Nat) :
    (runChunks outcome chunks acc).1 + (runChunks outcome chunks acc).2
      = acc.1 + acc.2 + (chunks.map List.length).sum := by
  induction chunks generalizing acc with
  | nil => simp [runChunks]
  | cons chunk rest ih =>
    simp only [runChunks, List.foldl_cons] at *
    rw [ih, foldl_tally_sum]
    simp only [List.map_cons, List.sum_cons, List.length_map]
    omega

/-- The function `chunkArray` partitions: the chunk lengths sum to the input length. -/
theorem chunkArray_length_sum {α : Type} (size : Nat) (hsize : 0 < size) :
    ∀ arr : List α, ((chunkArray arr size).map List.length).sum = arr.length
  | [] => by simp [chunkArray]
  | a :: rest => by
    rw [chunkArray]
    simp only [List.map_cons, List.sum_cons]
    rw [chunkArray_length_sum size hsize (rest.drop (size - 1))]
    simp only [List.length_take, List.length_drop, List.length_cons]
    omega
termination_by arr => arr.length
decreasing_by simp only [List.length_drop, List.length_cons]; omega

/-- Claim C2. After any complete batch run over the filtered URLs — sequential
`fetch`-engine loop or chunked `jina` loop — and for every mix of per-URL
outcomes, `successCount + errorCount` equals the number of URLs processed:
each URL's completion feeds exactly one `tally` step and the accumulator
starts at `(0, 0)` and is never reset. -/
theorem batchRunner_counts (outcome : String → Bool) (finalUrls : List String) :
    (runFetchEngine outcome finalUrls).1 + (runFetchEngine outcome finalUrls).2
        = finalUrls.length
    ∧ (runJinaEngine outcome finalUrls).1 + (runJinaEngine outcome finalUrls).2
        = finalUrls.length := by
  constructor
  · have h : runFetchEngine outcome finalUrls
        = (finalUrls.map outcome).foldl tally (0, 0) := by
      simp [runFetchEngine, List.foldl_map]
    rw [h, foldl_tally_sum]
    simp
  · rw [runJinaEngine, runChunks_sum, chunkArray_length_sum 50 (by decide)]
    simp

/-! ## Claim C4: XML extraction

Helper lemmas about the `<loc>` scanner. The two boundary lemmas rest on the
fact that neither `<loc>` nor `</loc>` has a non-trivial border (a proper
prefix that is also a suffix), so an occurrence can never straddle the
boundary between some junk text and a following literal. -/

/-- A prefix of `u ++ w` no longer than `u` is a prefix of `u`. -/
theorem prefix_of_prefix_append {pat u w : List Char} (h : pat <+: u ++ w)
    (hle : pat.length ≤ u.length) : pat <+: u := by
  rw [List.prefix_iff_eq_take] at h ⊢
  rw [List.take_append_eq_append_take] at h
  have h0 : pat.length - u.length = 0 := by omega
  rw [h0, List.take_zero, List.append_nil] at h
  exact h

/-- An occurrence of `<loc>` cannot straddle the boundary before a literal `<loc>`. -/
theorem boundary_locOpen (u v : List Char) (h0 : 0 < u.length) (h5 : u.length < 5) :
    ¬ locOpen <+: u ++ (locOpen ++ v) := by
  intro h
  rw [List.prefix_iff_eq_take, List.take_append_eq_append_take] at h
  have hu : u.take locOpen.length = u := by
    refine List.take_of_length_le ?_
    simp only [locOpen, List.length_cons, List.length_nil]
    omega
  rw [hu, List.take_append_eq_append_take] at h
  have h0' : locOpen.length - u.length - locOpen.length = 0 := by omega
  rw [h0', List.take_zero, List.append_nil] at h
  have hd := congrArg (List.drop u.length) h
  rw [List.drop_left] at hd
  set k := u.length with hk
  have h5' : k < 5 := by simpa [locOpen] using h5
  interval_cases k <;> simp [locOpen] at hd

/-- An occurrence of `</loc>` cannot straddle the boundary before a literal
`</loc>`. -/
theorem boundary_locClose (u v : List Char) (h0 : 0 < u.length) (h6 : u.length < 6) :
    ¬ locClose <+: u ++ (locClose ++ v) := by
  intro h
  rw [List.prefix_iff_eq_take, List.take_append_eq_append_take] at h
  have hu : u.take locClose.length = u := by
    refine List.take_of_length_le ?_
    simp only [locClose, List.length_cons, List.length_nil]
    omega
  rw [hu, List.take_append_eq_append_take] at h
  have h0' : locClose.length - u.length - locClose.length = 0 := by omega
  rw [h0', List.take_zero, List.append_nil] at h
  have hd := congrArg (List.drop u.length) h
  rw [List.drop_left] at hd
  set k := u.length with hk
  have h6' : k < 6 := by simpa [locClose] using h6
  interval_cases k <;> simp [locClose] at hd

/-- Text containing no `<loc>` yields no captures. -/
theorem scanLocs_eq_nil : ∀ (s : List Char), ¬ locOpen <:+: s → scanLocs s = []
  | [], _ => by rw [scanLocs.eq_1]
  | c :: cs, h => by
    rw [scanLocs.eq_2]
    have hpre : locOpen.isPrefixOf (c :: cs) = false := by
      rw [Bool.eq_false_iff]
      intro hp
      exact h ( List.isPrefixOf_iff_prefix.mp hp).isInfix
    rw [hpre]
    simp only [Bool.false_eq_true, if_false]
    exact scanLocs_eq_nil cs fun hinf => h (hinf.trans (List.suffix_cons c cs).isInfix)

/-- The scan passes over junk containing no `<loc>` and resumes at the next
literal `<loc>`. -/
theorem scanLocs_skip_junk : ∀ (s t : List Char), ¬ locOpen <:+: s →
    scanLocs (s ++ (locOpen ++ t)) = scanLocs (locOpen ++ t)
  | [], _, _ => by rw [List.nil_append]
  | c :: cs, t, h => by
    rw [List.cons_append, scanLocs.eq_2]
    have hpre : locOpen.isPrefixOf (c :: (cs ++ (locOpen ++ t))) = false := by
      rw [Bool.eq_false_iff]
      intro hp
      have hp' : locOpen <+: (c :: cs) ++ (locOpen ++ t) := by
        rw [List.cons_append]
        exact List.isPrefixOf_iff_prefix.mp hp
      by_cases hlen : 5 ≤ (c :: cs).length
      · have hin : locOpen <+: c :: cs :=
          prefix_of_prefix_append hp' (by simpa [locOpen] using hlen)
        exact h hin.isInfix
      · exact boundary_locOpen (c :: cs) t (by simp) (by omega) hp'
    rw [hpre]
    simp only [Bool.false_eq_true, if_false]
    exact scanLocs_skip_junk cs t fun hinf => h (hinf.trans (List.suffix_cons c cs).isInfix)

/-- The lazy tail matches exactly the line-terminator-free capture in front
of a literal `</loc>` (the capture cannot itself contain `</loc>`). -/
theorem findLocClose_complete : ∀ (capture rest : List Char),
    (∀ c ∈ capture, lineTerm c = false) → ¬ locClose <:+: capture →
    findLocClose (capture ++ (locClose ++ rest)) = some (capture, rest)
  | [], rest, _, _ => by
    rw [List.nil_append]
    rw [show locClose ++ rest = '<' :: ('/' :: 'l' :: 'o' :: 'c' :: '>' :: rest) by
      simp [locClose]]
    rw [findLocClose]
    rw [if_pos ( List.isPrefixOf_iff_prefix.mpr (by
      show locClose <+: '<' :: ('/' :: 'l' :: 'o' :: 'c' :: '>' :: rest)
      exact ⟨rest, by simp [locClose]⟩))]
    simp
  | c :: cs, rest, hlt, hcl => by
    rw [List.cons_append, findLocClose]
    have hpre : locClose.isPrefixOf (c :: (cs ++ (locClose ++ rest))) = false := by
      rw [Bool.eq_false_iff]
      intro hp
      have hp' : locClose <+: (c :: cs) ++ (locClose ++ rest) := by
        rw [List.cons_append]
        exact List.isPrefixOf_iff_prefix.mp hp
      by_cases hlen : 6 ≤ (c :: cs).length
      · have hin : locClose <+: c :: cs :=
          prefix_of_prefix_append hp' (by simpa [locClose] using hlen)
        exact hcl hin.isInfix
      · exact boundary_locClose (c :: cs) rest (by simp) (by omega) hp'
    rw [hpre]
    simp only [Bool.false_eq_true, if_false]
    rw [hlt c (List.mem_cons_self c _)]
    simp only [Bool.false_eq_true, if_false]
    rw [findLocClose_complete cs rest (fun x hx => hlt x (List.mem_cons_of_mem c hx))
      fun hinf => hcl (hinf.trans (List.suffix_cons c cs).isInfix)]

/-- One full match: a literal `<loc>`, a clean capture, a literal `</loc>`,
then the scan continues after the match. -/
theorem scanLocs_match (capture rest : List Char)
    (hlt : ∀ c ∈ capture, lineTerm c = false) (hcl : ¬ locClose <:+: capture) :
    scanLocs (locOpen ++ (capture ++ (locClose ++ rest)))
      = capture :: scanLocs rest := by
  rw [show locOpen ++ (capture ++ (locClose ++ rest))
      = '<' :: ('l' :: 'o' :: 'c' :: '>' :: (capture ++ (locClose ++ rest))) by
    simp [locOpen]]
  rw [scanLocs.eq_2]
  rw [if_pos ( List.isPrefixOf_iff_prefix.mpr (by
    show locOpen <+: '<' :: ('l' :: 'o' :: 'c' :: '>' :: (capture ++ (locClose ++ rest)))
    exact ⟨capture ++ (locClose ++ rest), by simp [locOpen]⟩))]
  have hdrop : ('<' :: ('l' :: 'o' :: 'c' :: '>' :: (capture ++ (locClose ++ rest)))).drop 5
      = capture ++ (locClose ++ rest) := by simp
  split
  · rename_i capture' rest' hmatch
    rw [hdrop, findLocClose_complete capture rest hlt hcl] at hmatch
    simp only [Option.some.injEq, Prod.mk.injEq] at hmatch
    obtain ⟨rfl, rfl⟩ := hmatch
    rfl
  · rename_i hmatch
    rw [hdrop, findLocClose_complete capture rest hlt hcl] at hmatch
    simp at hmatch

/-- The scan of a full decomposition returns exactly the inner texts, in
document order. -/
theorem scanLocs_decomp : ∀ (parts : List (List Char × List Char)) (s0 : List Char),
    ¬ locOpen <:+: s0 →
    (∀ part ∈ parts, (∀ c ∈ part.1, lineTerm c = false) ∧
      ¬ locClose <:+: part.1 ∧ ¬ locOpen <:+: part.2) →
    scanLocs (locDecomp s0 parts) = parts.map fun part => part.1
  | [], s0, h0, _ => by
    simp only [locDecomp, List.map_nil, List.flatten_nil, List.append_nil]
    exact scanLocs_eq_nil s0 h0
  | (capture, junk) :: parts, s0, h0, hparts => by
    obtain ⟨hlt, hcl, hjunk⟩ := hparts (capture, junk) (List.mem_cons_self _ _)
    have hrest : ∀ part ∈ parts, (∀ c ∈ part.1, lineTerm c = false) ∧
        ¬ locClose <:+: part.1 ∧ ¬ locOpen <:+: part.2 :=
      fun part hp => hparts part (List.mem_cons_of_mem _ hp)
    simp only [locDecomp, List.map_cons, List.flatten_cons]
    rw [show s0 ++ ((locOpen ++ (capture ++ (locClose ++ junk))) ++
        (parts.map fun part => locOpen ++ (part.1 ++ (locClose ++ part.2))).flatten)
      = s0 ++ (locOpen ++ (capture ++ (locClose ++ (junk ++
        (parts.map fun part => locOpen ++ (part.1 ++ (locClose ++ part.2))).flatten)))) by
      simp [List.append_assoc]]
    rw [scanLocs_skip_junk s0 _ h0]
    rw [scanLocs_match capture _ hlt hcl]
    rw [show junk ++ (parts.map fun part => locOpen ++ (part.1 ++ (locClose ++ part.2))).flatten
      = locDecomp junk parts from rfl]
    rw [scanLocs_decomp parts junk hjunk hrest]

/-- Claim C4, counterexample. The input `"<loc>a\nb</loc>"` is exactly one
well-formed `<loc>...</loc>` pair whose inner text is `"a\nb"` (first
conjunct), so the claim prescribes the one-string result `["a\nb"]` — but
`extractUrlsFromXml` returns no strings at all, because the JS `.` in
`/<loc>(.*?)<\/loc>/g` does not match the newline in the inner text. -/
theorem extractUrlsFromXml_newline_counterexample :
    "<loc>a\nb</loc>" = (⟨locDecomp [] [("a\nb".data, [])]⟩ : String)
    ∧ extractUrlsFromXml "<loc>a\nb</loc>" = []
    ∧ extractUrlsFromXml "<loc>a\nb</loc>" ≠ ["a\nb"] := by
  have h2 : extractUrlsFromXml "<loc>a\nb</loc>" = [] := by
    show (scanLocs "<loc>a\nb</loc>".data).map (fun capture => (⟨capture⟩ : String)) = []
    rw [show "<loc>a\nb</loc>".data = '<' :: 'l' :: 'o' :: 'c' :: '>' ::
        'a' :: '\n' :: 'b' :: '<' :: '/' :: 'l' :: 'o' :: 'c' :: '>' :: [] from rfl]
    rw [scanLocs.eq_2]
    split
    · split
      · rename_i capture rest hmatch
        rw [show List.drop 5 ('<' :: 'l' :: 'o' :: 'c' :: '>' :: 'a' :: '\n' :: 'b' ::
            '<' :: '/' :: 'l' :: 'o' :: 'c' :: '>' :: [])
          = 'a' :: '\n' :: 'b' :: '<' :: '/' :: 'l' :: 'o' :: 'c' :: '>' :: [] from rfl,
          show findLocClose ('a' :: '\n' :: 'b' :: '<' :: '/' :: 'l' :: 'o' :: 'c' ::
            '>' :: []) = none from by decide] at hmatch
        simp at hmatch
      · rw [scanLocs_eq_nil ('l' :: 'o' :: 'c' :: '>' :: 'a' :: '\n' :: 'b' ::
          '<' :: '/' :: 'l' :: 'o' :: 'c' :: '>' :: []) (by decide)]
        rfl
    · rename_i hcond
      exact absurd (by decide) hcond
  refine ⟨by decide, h2, ?_⟩
  rw [h2]
  simp

/-- Claim C4 (amended). For every XML input decomposable as
`s0 <loc>c1</loc> s1 ... <loc>ck</loc> sk` where no junk block `si` contains
`<loc>`, and no inner text `ci` contains a line terminator or `</loc>`,
extraction returns exactly the `k` inner texts `c1, ..., ck` in document
order. (The original claim fails for inner texts spanning a line break and
for `<loc>` occurrences inside junk, because the extraction is the literal
regex `/<loc>(.*?)<\/loc>/g`: see the counterexample.) -/
theorem extractUrlsFromXml_decomp (s0 : List Char)
    (parts : List (List Char × List Char))
    (hjunk0 : ¬ locOpen <:+: s0)
    (hparts : ∀ part ∈ parts, (∀ c ∈ part.1, lineTerm c = false) ∧
      ¬ locClose <:+: part.1 ∧ ¬ locOpen <:+: part.2) :
    extractUrlsFromXml ⟨locDecomp s0 parts⟩
      = parts.map fun part => (⟨part.1⟩ : String) := by
  show (scanLocs (⟨locDecomp s0 parts⟩ : String).data).map _ = _
  rw [show (⟨locDecomp s0 parts⟩ : String).data = locDecomp s0 parts from rfl]
  rw [scanLocs_decomp parts s0 hjunk0 hparts]
  rw [List.map_map]
  rfl

/-- Witness for C4 (amended): a one-URL sitemap in the usual
`<urlset><url><loc>...</loc></url></urlset>` shape. -/
theorem extractUrlsFromXml_decomp_witness :
    extractUrlsFromXml "<urlset><url><loc>https://a.com/x</loc></url></urlset>"
      = ["https://a.com/x"] := by
  have h := extractUrlsFromXml_decomp "<urlset><url>".data
    [("https://a.com/x".data, "</url></urlset>".data)] (by decide) (by decide)
  have heq : (⟨locDecomp "<urlset><url>".data
      [("https://a.com/x".data, "</url></urlset>".data)]⟩ : String)
      = "<urlset><url><loc>https://a.com/x</loc></url></urlset>" := by decide
  rw [heq] at h
  exact h.trans (by decide)

/-! ## Claim C3: JSON extraction -/

/-- Claim C3. For every valid JSON input of shape `{"urls": [a, b, c]}` (with
`a`, `b`, `c` non-empty strings) the extraction returns `[a, b, c]` in the
same order with `source = "json"` (here: for a non-URL input detected as
JSON); elements of a `urls` array that are not non-empty strings are filtered
out, in order; a bare JSON array is used directly; and every other JSON shape
yields an empty URL list with no error. -/
theorem extractUrlsFromJson_spec :
    (∀ (input content : String) (a b c : String),
        detectFormat input content = Format.json →
        a.length > 0 → b.length > 0 → c.length > 0 →
        processSitemap false input content
            (some (.obj [("urls", .arr [.str a, .str b, .str c])]))
          = { urls := [a, b, c], source := Source.json })
    ∧ (∀ elems : List Json,
        extractUrlsFromJson (some (.obj [("urls", .arr elems)]))
            = elems.filterMap keepNonEmptyString
        ∧ extractUrlsFromJson (some (.arr elems))
            = elems.filterMap keepNonEmptyString)
    ∧ extractUrlsFromJson none = []
    ∧ extractUrlsFromJson (some .null) = []
    ∧ (∀ b : Bool, extractUrlsFromJson (some (.bool b)) = [])
    ∧ (∀ n : Int, extractUrlsFromJson (some (.num n)) = [])
    ∧ (∀ s : String, extractUrlsFromJson (some (.str s)) = [])
    ∧ (∀ entries : List (String × Json),
        (∀ elems, jsGetProp entries "urls" ≠ some (.arr elems)) →
        extractUrlsFromJson (some (.obj entries)) = []) := by
  have hobj : ∀ elems : List Json,
      extractUrlsFromJson (some (.obj [("urls", .arr elems)]))
        = elems.filterMap keepNonEmptyString := by
    intro elems
    show jsonFilterUrls elems = _
    rfl
  have harr : ∀ elems : List Json,
      extractUrlsFromJson (some (.arr elems)) = elems.filterMap keepNonEmptyString := by
    intro elems
    show jsonFilterUrls elems = _
    rfl
  refine ⟨?_, fun elems => ⟨hobj elems, harr elems⟩, rfl, rfl,
    fun b => rfl, fun n => rfl, fun s => rfl, ?_⟩
  · intro input content a b c hformat ha hb hc
    unfold processSitemap
    rw [hformat]
    have hurls : extractUrlsFromJson
        (some (.obj [("urls", .arr [.str a, .str b, .str c])])) = [a, b, c] := by
      rw [hobj]
      simp only [List.filterMap, keepNonEmptyString]
      rw [if_pos ha, if_pos hb, if_pos hc]
    simp [hurls]
  · intro entries hnone
    show (match jsUrlsProp (.obj entries) with
      | some (.arr elems) => jsonFilterUrls elems
      | _ => match (Json.obj entries) with
        | .arr elems => jsonFilterUrls elems
        | _ => []) = []
    rcases hget : jsGetProp entries "urls" with - | u
    · rw [show jsUrlsProp (.obj entries) = jsGetProp entries "urls" from rfl, hget]
    · rw [show jsUrlsProp (.obj entries) = jsGetProp entries "urls" from rfl, hget]
      cases u with
      | arr elems => exact absurd hget (hnone elems)
      | null => rfl
      | bool b => rfl
      | num n => rfl
      | str s => rfl
      | obj o => rfl

/-- Witness for C3 at a concrete `{"urls": [...]}` input. -/
theorem extractUrlsFromJson_spec_witness :
    processSitemap false "sitemap.json"
        "\x7b\"urls\":[\"https://a.com/p1\",\"https://b.com/p2\",\"https://c.com/p3\"]\x7d"
        (some (.obj [("urls", .arr [.str "https://a.com/p1", .str "https://b.com/p2",
          .str "https://c.com/p3"])]))
      = { urls := ["https://a.com/p1", "https://b.com/p2", "https://c.com/p3"],
          source := Source.json } :=
  extractUrlsFromJson_spec.1 "sitemap.json" _ _ _ _
    (by decide) (by decide) (by decide) (by decide)

/-! ## Claim C5: malformed JSON -/

/-- Claim C5, counterexample. A malformed JSON input (`"\x7boops"`, detected as
JSON, `JSON.parse` throws — modelled by `parsed = none`) does *not* abort
through a parse error distinct from the empty-result condition: the catch in
`extractUrlsFromJson` maps the parse failure to `[]`, and the run aborts
through exactly the same `noUrlsFound` path ("No se encontraron URLs en el
sitemap", exit 1) that a well-formed JSON input with no URLs (`"\x7b\x7d"`)
takes — the two inputs are indistinguishable to the caller. -/
theorem malformedJson_counterexample :
    sitemapToMdPreflight false "bad.json" "\x7boops" none [] []
        = some RunAbort.noUrlsFound
    ∧ sitemapToMdPreflight false "empty.json" "\x7b\x7d" (some (.obj [])) [] []
        = some RunAbort.noUrlsFound := by
  constructor <;> decide

/-- Claim C5 (amended). For every input whose content is detected as JSON but
is malformed (does not parse as a JSON value), extraction yields an empty URL
list and the run aborts fatally — but through the empty-result condition
("No se encontraron URLs en el sitemap"), not through a parse error distinct
from it: the code has no such distinct error. -/
theorem malformedJson_aborts (inputIsUrl : Bool) (input content : String)
    (includePatterns excludePatterns : List String)
    (hformat : detectFormat input content = Format.json) :
    sitemapToMdPreflight inputIsUrl input content none
        includePatterns excludePatterns = some RunAbort.noUrlsFound := by
  unfold sitemapToMdPreflight processSitemap
  rw [hformat]
  rfl

/-- Witness for C5 (amended) at the malformed input `"\x7boops"`. -/
theorem malformedJson_aborts_witness :
    sitemapToMdPreflight true "https://a.com/sitemap" "\x7boops" none ["a"] ["b"]
      = some RunAbort.noUrlsFound :=
  malformedJson_aborts true "https://a.com/sitemap" "\x7boops" ["a"] ["b"] (by decide)

/-! ## Claim C6: empty content handling -/

/-- Claim C6, counterexample. With the `fetch` engine of `sitemapToMd`, a URL
whose engine-plus-transform result is the empty string is *not* counted as
an error: the fetched document `"<html><body></body></html>"` has no title
and an empty body, the transform returns `""`, and the per-URL step still
reaches the success path (`some ""`: the empty markdown is written and
`successCount` is incremented) — the claim demands an error for every
engine. -/
theorem fetchEngine_empty_success_counterexample :
    fetchEngineStep (fun _ => "") (some "<html><body></body></html>") = some ""
    ∧ (fetchEngineStep (fun _ => "") (some "<html><body></body></html>")).isSome
        = true := by
  constructor <;> decide

/-- Claim C6 (amended). In the Jina JSON pipeline (`processUrl` of
src/src/sitemap-to-jina.ts) a URL whose markdown content is missing, empty or
whitespace-only after extraction is counted as an error (`success: false`,
feeding `errorCount`), never as a success or a silent skip. The engines of
src/src/lib/sitemap-to-md.ts perform no such emptiness check and count the
URL as a success — see the counterexample. -/
theorem processUrl_empty_markdown_error (response : Option JinaResponse)
    (h : ∀ r, response = some r → ∀ md, jinaMarkdown r = some md → jsTrim md = "") :
    processUrlSuccess response = false := by
  cases response with
  | none => rfl
  | some r =>
    show (match jinaMarkdown r with
      | none => false
      | some markdown => !((jsTrim markdown).length == 0)) = false
    rcases hmd : jinaMarkdown r with - | md
    · rfl
    · show (!((jsTrim md).length == 0)) = false
      rw [h r rfl md hmd]
      rfl

/-- Witness for C6 (amended): a Jina envelope whose only content is the
whitespace-only `"  "`. -/
theorem processUrl_empty_markdown_error_witness :
    processUrlSuccess
      (some (JinaResponse.mk (some (JinaDataPayload.mk (some "T") (some "  "))) none))
      = false :=
  processUrl_empty_markdown_error _ (by
    intro r hr md hmd
    injection hr with hr'
    subst hr'
    rw [show jinaMarkdown
        (JinaResponse.mk (some (JinaDataPayload.mk (some "T") (some "  "))) none)
      = some "  " from rfl] at hmd
    cases hmd
    decide)

/-! ## Claim C7: page-title filenames -/

/-- Every character of a run-collapsed list is the replacement character or
an input character not matched by the run class. -/
theorem collapseRunsAux_chars (p : Char → Bool) (r : Char) :
    ∀ (b : Bool) (l : List Char) (c : Char), c ∈ collapseRunsAux p r b l →
      c = r ∨ (c ∈ l ∧ p c = false)
  | b, [], c, h => by simp [collapseRunsAux] at h
  | b, x :: xs, c, h => by
    rw [collapseRunsAux] at h
    split at h
    · split at h
      · rcases collapseRunsAux_chars p r true xs c h with h' | ⟨hmem, hp⟩
        · exact Or.inl h'
        · exact Or.inr ⟨List.mem_cons_of_mem _ hmem, hp⟩
      · rcases List.mem_cons.mp h with rfl | h'
        · exact Or.inl rfl
        · rcases collapseRunsAux_chars p r true xs c h' with h'' | ⟨hmem, hp⟩
          · exact Or.inl h''
          · exact Or.inr ⟨List.mem_cons_of_mem _ hmem, hp⟩
    · rename_i hpx
      rcases List.mem_cons.mp h with rfl | h'
      · exact Or.inr ⟨List.mem_cons_self _ _, Bool.not_eq_true _ ▸ hpx⟩
      · rcases collapseRunsAux_chars p r false xs c h' with h'' | ⟨hmem, hp⟩
        · exact Or.inl h''
        · exact Or.inr ⟨List.mem_cons_of_mem _ hmem, hp⟩

/-- After collapsing `-` runs there are no two adjacent hyphens, and a run
just closed cannot be followed by another hyphen. -/
theorem collapseHyphens_no_doubleHyphen :
    ∀ (l : List Char) (b : Bool),
      ¬ ['-', '-'] <:+: collapseRunsAux (fun c => c == '-') '-' b l
      ∧ (b = true → (collapseRunsAux (fun c => c == '-') '-' b l).head? ≠ some '-')
  | [], b => by
    constructor
    · intro hinf
      simp [collapseRunsAux] at hinf
    · intro _
      simp [collapseRunsAux]
  | x :: xs, b => by
    rw [collapseRunsAux]
    split
    · rename_i hx
      split
    -- run continues: flag stays true, head cannot be '-' by induction
      · exact ⟨(collapseHyphens_no_doubleHyphen xs true).1,
          fun _ => (collapseHyphens_no_doubleHyphen xs true).2 rfl⟩
    -- run opens: emit one '-'; the tail cannot start with '-'
      · refine ⟨?_, ?_⟩
        · intro hinf
          rcases List.infix_cons_iff.mp hinf with hpre | hinf'
          · rw [List.cons_prefix_cons] at hpre
            obtain ⟨-, hpre'⟩ := hpre
            obtain ⟨t, ht⟩ := hpre'
            exact (collapseHyphens_no_doubleHyphen xs true).2 rfl (by rw [← ht]; rfl)
          · exact (collapseHyphens_no_doubleHyphen xs true).1 hinf'
        · rename_i hb
          intro hb'
          exact absurd hb' (by simpa using hb)
    · rename_i hx
      refine ⟨?_, ?_⟩
      · intro hinf
        rcases List.infix_cons_iff.mp hinf with hpre | hinf'
        · rw [List.cons_prefix_cons] at hpre
          exact hx (by rw [← hpre.1]; rfl)
        · exact (collapseHyphens_no_doubleHyphen xs false).1 hinf'
      · intro _
        intro hhead
        simp only [List.head?_cons, Option.some.injEq] at hhead
        exact hx (by rw [hhead]; rfl)

/-- Membership survives the hyphen-trimming and 100-character cap of
`sanitizeFilename` backwards: a character of the final list was already in
the run-collapsed list. -/
theorem mem_of_mem_trimTake {p : Char → Bool} {n : Nat} {l : List Char} {c : Char}
    (hc : c ∈ (((l.dropWhile p).reverse.dropWhile p).reverse.take n)) : c ∈ l := by
  have h1 := List.take_subset _ _ hc
  rw [List.mem_reverse] at h1
  have h2 := (List.dropWhile_sublist _).subset h1
  rw [List.mem_reverse] at h2
  exact (List.dropWhile_sublist _).subset h2

/-- A palindromic pattern occurring in the trimmed-and-capped list already
occurs in the run-collapsed list. -/
theorem infix_of_infix_trimTake {p : Char → Bool} {n : Nat} {l pat : List Char}
    (hpat : pat.reverse = pat)
    (h : pat <:+: (((l.dropWhile p).reverse.dropWhile p).reverse.take n)) :
    pat <:+: l := by
  have h1 := h.trans ( List.take_prefix _ _).isInfix
  have h1' : pat.reverse <:+: ((l.dropWhile p).reverse.dropWhile p).reverse := by
    rw [hpat]
    exact h1
  have h2 := ( List.reverse_infix.mp h1').trans (List.dropWhile_suffix p).isInfix
  have h2' : pat.reverse <:+: (l.dropWhile p).reverse := by
    rw [hpat]
    exact h2
  exact ( List.reverse_infix.mp h2').trans (List.dropWhile_suffix p).isInfix

/-- The characters surviving `sanitizeFilename` are lowercase letters,
digits, and hyphens — in particular no whitespace survives the collapse. -/
theorem sanitizeFilename_chars (nfd : String → String) (name : String) :
    ∀ c ∈ (sanitizeFilename nfd name).data,
      ('a' ≤ c ∧ c ≤ 'z') ∨ ('0' ≤ c ∧ c ≤ '9') ∨ c = '-' := by
  intro c hc
  simp only [sanitizeFilename] at hc
  split at hc
  · exact (by decide :
      ∀ c ∈ "untitled".data, ('a' ≤ c ∧ c ≤ 'z') ∨ ('0' ≤ c ∧ c ≤ '9') ∨ c = '-') c hc
  · have hc3 : c ∈ collapseRunsAux (fun c => c == '-') '-' false
        (collapseRunsAux jsWhitespace '-' false
          (((nfd (jsToLower name)).data.filter fun c => !combiningMark c).map
            fun c => if sanitizeKeep c then c else '-')) :=
      mem_of_mem_trimTake hc
    rcases collapseRunsAux_chars _ '-' false _ c hc3 with rfl | ⟨hc4, hnh⟩
    · exact Or.inr (Or.inr rfl)
    · rcases collapseRunsAux_chars _ '-' false _ c hc4 with rfl | ⟨hc5, hws⟩
      · exact Or.inr (Or.inr rfl)
      · rcases List.mem_map.mp hc5 with ⟨c0, -, hc0⟩
        by_cases hkeep : sanitizeKeep c0 = true
        · rw [if_pos hkeep] at hc0
          subst hc0
          simp only [sanitizeKeep, Bool.or_eq_true, Bool.and_eq_true,
            decide_eq_true_eq, beq_iff_eq] at hkeep
          rcases hkeep with ((h1 | h2) | hws') | hh
          · exact Or.inl h1
          · exact Or.inr (Or.inl h2)
          · rw [hws'] at hws
            cases hws
          · exact Or.inr (Or.inr hh)
        · rw [if_neg hkeep] at hc0
          exact Or.inr (Or.inr hc0.symm)

/-- The result of `sanitizeFilename` contains no run of two hyphens. -/
theorem sanitizeFilename_no_doubleHyphen (nfd : String → String) (name : String) :
    ¬ ['-', '-'] <:+: (sanitizeFilename nfd name).data := by
  simp only [sanitizeFilename]
  split
  · decide
  · intro hinf
    have h3 : (['-', '-'] : List Char) <:+: collapseRunsAux (fun c => c == '-') '-' false
        (collapseRunsAux jsWhitespace '-' false
          (((nfd (jsToLower name)).data.filter fun c => !combiningMark c).map
            fun c => if sanitizeKeep c then c else '-')) :=
      infix_of_infix_trimTake rfl hinf
    exact (collapseHyphens_no_doubleHyphen _ false).1 h3

/-- The function `sanitizeFilename` caps its result at 100 characters (the `"untitled"`
default is 8). -/
theorem sanitizeFilename_length (nfd : String → String) (name : String) :
    (sanitizeFilename nfd name).length ≤ 100 := by
  simp only [sanitizeFilename]
  split
  · decide
  · exact List.length_take_le _ _

/-- Claim C7, counterexample. For the title `"a.b"` the claim's sanitization —
*strip* all characters outside `[a-z0-9\s-]` — prescribes the base name
`"ab"`, but the code (`sanitizeFilename`) *replaces* each such character with
a hyphen: under `titleType = "page"` the derived name is `"a-b"`, not
`"ab"`. -/
theorem determineFilename_strip_counterexample :
    determineFilename (fun s => s) (fun _ => some "/p") "https://x.com/p"
        (some "a.b") TitleType.page 0 1 = "a-b"
    ∧ specSanitizeTitle (fun s => s) "a.b" = "ab"
    ∧ ("a-b" : String) ≠ "ab" := by
  refine ⟨by decide, by decide, by decide⟩

/-- Claim C7 (amended). Under `titleType = "page"` with a non-empty title, the
derived base name is the title sanitized by lowercasing, the NFD
diacritic-stripping normalization, *replacing* each character outside
`[a-z0-9\s-]` with a hyphen, collapsing whitespace and hyphen runs (no
whitespace survives and no two adjacent hyphens remain), trimming edge
hyphens and capping at 100 characters; if that yields `"untitled"` (in
particular when it would be empty), the name falls back to the URL's last
non-empty path segment with its extension stripped, `"index"` if the URL
path has no non-empty segment, or `"untitled"` if the URL is unparseable. -/
theorem determineFilename_page_spec (nfd : String → String)
    (parseUrl : String → Option String) (url title : String) (index total : Nat)
    (htitle : title ≠ "") :
    (determineFilename nfd parseUrl url (some title) TitleType.page index total
        = if sanitizeFilename nfd title = "untitled"
          then getLastUrlSegment parseUrl url else sanitizeFilename nfd title)
    ∧ (sanitizeFilename nfd title).length ≤ 100
    ∧ (∀ c ∈ (sanitizeFilename nfd title).data,
        ('a' ≤ c ∧ c ≤ 'z') ∨ ('0' ≤ c ∧ c ≤ '9') ∨ c = '-')
    ∧ ¬ ['-', '-'] <:+: (sanitizeFilename nfd title).data
    ∧ (parseUrl url = none → getLastUrlSegment parseUrl url = "untitled")
    ∧ (∀ pathname, parseUrl url = some pathname →
        ((jsSplit '/' pathname).filter fun segment => segment.length > 0) = [] →
        getLastUrlSegment parseUrl url = "index") := by
  refine ⟨?_, sanitizeFilename_length nfd title, sanitizeFilename_chars nfd title,
    sanitizeFilename_no_doubleHyphen nfd title, ?_, ?_⟩
  · show determineBase nfd parseUrl url (some title) TitleType.page = _
    have hlen : (title.length == 0) = false := by
      rw [beq_eq_false_iff_ne]
      intro h0
      apply htitle
      cases title with
      | mk data =>
        have hnil : data = [] := List.length_eq_zero.mp h0
        rw [hnil]
    show (let titleOrDefault := if (title.length == 0) = true then "untitled" else title
      let base := sanitizeFilename nfd titleOrDefault
      if (base == "untitled") = true then getLastUrlSegment parseUrl url else base) = _
    rw [hlen]
    simp only [Bool.false_eq_true, if_false, beq_iff_eq]
  · intro hnone
    unfold getLastUrlSegment
    rw [hnone]
  · intro pathname hsome hempty
    unfold getLastUrlSegment
    rw [hsome]
    simp [hempty]

/-- Witness for C7 (amended) at the title `"Hello World!"`. -/
theorem determineFilename_page_spec_witness :
    determineFilename (fun s => s) (fun _ => some "/a/b") "https://x.com/a/b"
      (some "Hello World!") TitleType.page 0 10 = "hello-world" := by
  have h := (determineFilename_page_spec (fun s => s) (fun _ => some "/a/b")
    "https://x.com/a/b" "Hello World!" 0 10 (by decide)).1
  rw [h]
  decide

/-! ## Claim C8: numeric prefixes -/

/-- Claim C8. Whenever `numericPrefix` is selected or `titleType = "url"` is
selected, the derived filename is the 1-based index zero-padded to the
decimal width of `total`, a hyphen, then the base name. The first conjunct is
about the spec-modelled `deriveNameWithPolicy` (no source file implements
`numericPrefix`); the second is the source's `determineFilename`, which
prefixes exactly in its `titleType = "url"` case. -/
theorem deriveName_numericPrefix (nfd : String → String)
    (parseUrl : String → Option String) (url : String) (pageTitle : Option String)
    (titleType : TitleType) (numericPrefix : Bool) (index total : Nat)
    (h : numericPrefix = true ∨ titleType = TitleType.url) :
    deriveNameWithPolicy nfd parseUrl url pageTitle titleType numericPrefix index total
        = padStart (toString (index + 1)) ((toString total).length) '0' ++ "-"
          ++ determineBase nfd parseUrl url pageTitle titleType
    ∧ (titleType = TitleType.url →
        determineFilename nfd parseUrl url pageTitle titleType index total
          = padStart (toString (index + 1)) ((toString total).length) '0' ++ "-"
            ++ determineBase nfd parseUrl url pageTitle titleType) := by
  constructor
  · unfold deriveNameWithPolicy
    rcases h with rfl | rfl
    · rw [if_pos (by simp)]
    · rw [if_pos (by simp)]
  · rintro rfl
    rfl

/-- Witness for C8: `numericPrefix = true`, `total = 100`, `index = 4` (with
`titleType = "page"`, so only the spec-modelled flag triggers the prefix)
yields a filename beginning with `"005-"`. -/
theorem deriveName_numericPrefix_witness :
    deriveNameWithPolicy (fun s => s) (fun _ => some "/docs/guide")
      "https://x.com/docs/guide" (some "Guide") TitleType.page true 4 100
      = "005-guide" := by
  have h := (deriveName_numericPrefix (fun s => s) (fun _ => some "/docs/guide")
    "https://x.com/docs/guide" (some "Guide") TitleType.page true 4 100
    (Or.inl rfl)).1
  rw [h]
  decide

end SitemapToLlm
